import Mathlib

/-!
Verification development for the AI-CAD front end.

Part 1 embeds the response-recovery parser of `services/geminiService.ts`
(`sendMessageToGemini`): the markdown-fence stripping, the three regex syntax
repairs, the truncation repair and the fallback envelope, together with the
JS `JSON.parse` semantics they rely on.

Part 2 embeds the scene-editor state machine of `App.tsx` / `Viewer3D`
(`pushToHistory`, `undo`, `redo`, the shape mutators, grouping and selection).

Conventions: strings are modelled as `List Char`; JS numbers inside JSON are
kept as their source literals (the claims never compute with them); machine
floats never arise in the verified claims.  All definitions are executable.
-/

/-- A parsed JSON value, as produced by `JSON.parse`.  Numbers keep their
source literal (exact, no float rounding); object member lists are kept in
insertion order and are duplicate-free (later duplicates overwrite in place,
as JS object construction does). -/
inductive Json where
  | null : Json
  | bool : Bool → Json
  | num : String → Json
  | str : String → Json
  | arr : List Json → Json
  | obj : List (String × Json) → Json
deriving Repr

/-! ### JS character classes -/

/-- JSON whitespace (the only characters `JSON.parse` skips between tokens). -/
def jsonWs (c : Char) : Bool := c = ' ' || c = '\t' || c = '\n' || c = '\r'

/-- The ASCII part of the JS regex class `\s` (plus NBSP), used by the repair
regexes.  The verified inputs only ever contain the ASCII members. -/
def jsRegexWs (c : Char) : Bool :=
  c = ' ' || c = '\t' || c = '\n' || c = '\r' || c = '\x0b' || c = '\x0c' ||
  c = Char.ofNat 160

/-- The character class `[a-zA-Z0-9_]` of the unquoted-key repair regex. -/
def jsWordChar (c : Char) : Bool :=
  ('a' ≤ c && c ≤ 'z') || ('A' ≤ c && c ≤ 'Z') || ('0' ≤ c && c ≤ '9') || c = '_'

def isDigitCh (c : Char) : Bool := '0' ≤ c && c ≤ '9'

/-- Skip JSON whitespace. -/
def skipWs : List Char → List Char
  | c :: cs => if jsonWs c then skipWs cs else c :: cs
  | [] => []

/-! ### JSON.parse on character lists -/

def hexDigitVal (c : Char) : Option Nat :=
  let n := c.toNat
  if 48 ≤ n && n ≤ 57 then some (n - 48)
  else if 97 ≤ n && n ≤ 102 then some (n - 87)
  else if 65 ≤ n && n ≤ 70 then some (n - 55)
  else none

/-- Decode the four hex digits of a `\uXXXX` escape.  Code points that are not
Lean scalar values (lone surrogates) are mapped to U+FFFD; no verified input
contains such an escape. -/
def hexQuad (a b c d : Char) : Option Char :=
  match hexDigitVal a, hexDigitVal b, hexDigitVal c, hexDigitVal d with
  | some va, some vb, some vc, some vd => some (Char.ofNat (((va * 16 + vb) * 16 + vc) * 16 + vd))
  | _, _, _, _ => none

/-- Body of a JSON string after the opening quote: stops at the closing quote,
decodes escapes, rejects raw control characters and unterminated strings. -/
def strBody (acc : List Char) : List Char → Option (String × List Char)
  | '"' :: rest => some (String.mk acc.reverse, rest)
  | '\\' :: '"' :: rest => strBody ('"' :: acc) rest
  | '\\' :: '\\' :: rest => strBody ('\\' :: acc) rest
  | '\\' :: '/' :: rest => strBody ('/' :: acc) rest
  | '\\' :: 'b' :: rest => strBody ('\x08' :: acc) rest
  | '\\' :: 'f' :: rest => strBody ('\x0c' :: acc) rest
  | '\\' :: 'n' :: rest => strBody ('\n' :: acc) rest
  | '\\' :: 'r' :: rest => strBody ('\r' :: acc) rest
  | '\\' :: 't' :: rest => strBody ('\t' :: acc) rest
  | '\\' :: 'u' :: a :: b :: c :: d :: rest =>
    match hexQuad a b c d with
    | some ch => strBody (ch :: acc) rest
    | none => none
  | '\\' :: _ => none
  | c :: rest => if c.toNat < 32 then none else strBody (c :: acc) rest
  | [] => none

def takeDigits (cs : List Char) : List Char × List Char :=
  (cs.takeWhile isDigitCh, cs.dropWhile isDigitCh)

/-- A JSON number literal, returned as the exact source text.  Follows the
JSON grammar: no leading zeros, a fraction needs at least one digit, an
exponent needs at least one digit. -/
def numLit (cs : List Char) : Option (String × List Char) :=
  let (sign, cs1) : List Char × List Char :=
    match cs with
    | '-' :: r => (['-'], r)
    | _ => ([], cs)
  let (intDs, cs2) := takeDigits cs1
  match intDs with
  | [] => none
  | d0 :: ds =>
    if d0 = '0' && ds ≠ [] then none
    else
      let (fracDs, cs3) : List Char × List Char :=
        match cs2 with
        | '.' :: r => let (fs, r2) := takeDigits r; ('.' :: fs, r2)
        | _ => ([], cs2)
      if fracDs = ['.'] then none
      else
        match cs3 with
        | 'e' :: r | 'E' :: r =>
          let (esign, r1) : List Char × List Char :=
            match r with
            | '+' :: r2 => (['+'], r2)
            | '-' :: r2 => (['-'], r2)
            | _ => ([], r)
          let (expDs, r2) := takeDigits r1
          match expDs with
          | [] => none
          | _ =>
            some (String.mk (sign ++ intDs ++ fracDs ++ 'e' :: esign ++ expDs), r2)
        | _ => some (String.mk (sign ++ intDs ++ fracDs), cs3)

/-- Insert a member into an object member list the way JS property assignment
during `JSON.parse` does: a duplicate key overwrites the earlier value in
place, keeping the original position; a fresh key is appended. -/
def objInsert (k : String) (v : Json) : List (String × Json) → List (String × Json)
  | [] => [(k, v)]
  | (l, w) :: rest => if l = k then (l, v) :: rest else (l, w) :: objInsert k v rest

/-- The non-recursive first step of parsing a value, on whitespace-skipped
input: either the value completes without recursion (string, number, literal,
empty array/object), or parsing must recurse into array elements or object
members, or the input is not a value. -/
inductive HeadStep where
  | intoObj (r : List Char)
  | emptyObj (r : List Char)
  | intoArr (r : List Char)
  | emptyArr (r : List Char)
  | lit (v : Json) (r : List Char)
  | bad

def valHead : List Char → HeadStep := fun cs =>
  match cs with
  | '\x7b' :: r =>
    (match skipWs r with
     | '\x7d' :: r2 => .emptyObj r2
     | r1 => .intoObj r1)
  | '[' :: r =>
    (match skipWs r with
     | ']' :: r2 => .emptyArr r2
     | r1 => .intoArr r1)
  | '"' :: r =>
    (match strBody [] r with
     | some (s, r2) => .lit (.str s) r2
     | none => .bad)
  | 't' :: 'r' :: 'u' :: 'e' :: r => .lit (.bool true) r
  | 'f' :: 'a' :: 'l' :: 's' :: 'e' :: r => .lit (.bool false) r
  | 'n' :: 'u' :: 'l' :: 'l' :: r => .lit .null r
  | c :: rest =>
    if c = '-' || isDigitCh c then
      match numLit (c :: rest) with
      | some (l, r2) => .lit (.num l) r2
      | none => .bad
    else .bad
  | [] => .bad

/-- What follows a parsed value inside an array or object: a comma (more to
come), the closing bracket, or a syntax error. -/
inductive SepStep where
  | more (r : List Char)
  | closed (r : List Char)
  | bad

def arrSep : List Char → SepStep := fun cs =>
  match cs with
  | ',' :: r2 => .more r2
  | ']' :: r2 => .closed r2
  | _ => .bad

def objSep : List Char → SepStep := fun cs =>
  match cs with
  | ',' :: r2 => .more r2
  | '\x7d' :: r2 => .closed r2
  | _ => .bad

/-- The non-recursive key part of an object member on whitespace-skipped
input: a quoted key followed (across whitespace) by a colon, or an error. -/
inductive KeyStep where
  | entry (k : String) (r : List Char)
  | bad

def membKey : List Char → KeyStep := fun cs =>
  match cs with
  | '"' :: r1 =>
    (match strBody [] r1 with
     | none => .bad
     | some (k, r2) =>
       match skipWs r2 with
       | ':' :: r3 => .entry k r3
       | _ => .bad)
  | _ => .bad

/-- The three mutually recursive parsing modes, tied by the fuel iteration
below: a value, the elements of a non-empty array, the members of a non-empty
object. -/
structure PFuns where
  val : List Char → Option (Json × List Char)
  elems : List Char → List Json → Option (Json × List Char)
  membs : List Char → List (String × Json) → Option (Json × List Char)

def pfunsZero : PFuns where
  val _ := none
  elems _ _ := none
  membs _ _ := none

/-- One layer of the recursive JSON grammar; recursive positions call `p`. -/
def pfunsStep (p : PFuns) : PFuns where
  val cs :=
    match valHead (skipWs cs) with
    | .intoObj r1 => p.membs r1 []
    | .emptyObj r2 => some (.obj [], r2)
    | .intoArr r1 => p.elems r1 []
    | .emptyArr r2 => some (.arr [], r2)
    | .lit v r => some (v, r)
    | .bad => none
  elems cs acc :=
    match p.val cs with
    | none => none
    | some (v, rest) =>
      match arrSep (skipWs rest) with
      | .more r2 => p.elems r2 (acc ++ [v])
      | .closed r2 => some (.arr (acc ++ [v]), r2)
      | .bad => none
  membs cs acc :=
    match membKey (skipWs cs) with
    | .bad => none
    | .entry k r3 =>
      match p.val r3 with
      | none => none
      | some (v, r4) =>
        match objSep (skipWs r4) with
        | .more r5 => p.membs r5 (objInsert k v acc)
        | .closed r5 => some (.obj (objInsert k v acc), r5)
        | .bad => none

def pfuns : Nat → PFuns
  | 0 => pfunsZero
  | fuel + 1 => pfunsStep (pfuns fuel)

/-- `JSON.parse` on a character list: parse one value, then allow only
whitespace to follow.  The fuel `2 * length + 4` strictly exceeds the call
depth the grammar can reach on the input (each level of the iteration consumes
at least one character, except array/object openings which consume one
character per two levels), so the fuel bound is never the reason for `none`. -/
def jsonParse (cs : List Char) : Option Json :=
  match (pfuns (2 * cs.length + 4)).val cs with
  | some (v, rest) => if skipWs rest = [] then some v else none
  | none => none

/-! ### The markdown / regex repair passes of `sendMessageToGemini` -/

/-- Does the j/s/o/n quad complete a case-insensitive literal "json"?  The `i`
flag of the fence regex affects only these letters. -/
def fenceWord (c1 c2 c3 c4 : Char) : Bool :=
  (c1 = 'j' || c1 = 'J') && (c2 = 's' || c2 = 'S') &&
  (c3 = 'o' || c3 = 'O') && (c4 = 'n' || c4 = 'N')

/-- Does `cs` start with a case-insensitive "```json" match?  If so, return
what follows the seven matched characters. -/
def fenceJsonHead : List Char → Option (List Char) := fun cs =>
  match cs with
  | '`' :: '`' :: '`' :: c1 :: c2 :: c3 :: c4 :: rest2 =>
    if fenceWord c1 c2 c3 c4 then some rest2 else none
  | _ => none

/-- `replace(/```json/gi, "")`: global left-to-right scan; on a match the
seven matched characters are dropped and scanning resumes after them.
Fuelled (one unit per step, each step consumes at least one character). -/
def stripFenceJsonGo : Nat → List Char → List Char
  | 0, _ => []
  | _, [] => []
  | fuel + 1, c :: rest =>
    match fenceJsonHead (c :: rest) with
    | some rest2 => stripFenceJsonGo fuel rest2
    | none => c :: stripFenceJsonGo fuel rest

def stripFenceJson (cs : List Char) : List Char := stripFenceJsonGo (cs.length + 1) cs

/-- Does `cs` start with "```"?  If so, return what follows. -/
def fence3Head : List Char → Option (List Char) := fun cs =>
  match cs with
  | '`' :: '`' :: '`' :: rest2 => some rest2
  | _ => none

/-- `replace(/```/g, "")`.  Fuelled like `stripFenceJsonGo`. -/
def stripFence3Go : Nat → List Char → List Char
  | 0, _ => []
  | _, [] => []
  | fuel + 1, c :: rest =>
    match fence3Head (c :: rest) with
    | some rest2 => stripFence3Go fuel rest2
    | none => c :: stripFence3Go fuel rest

def stripFence3 (cs : List Char) : List Char := stripFence3Go (cs.length + 1) cs

/-- The whitespace set of `String.prototype.trim` (ASCII part plus NBSP and
the BOM; the verified inputs only contain the ASCII members). -/
def jsTrimWs (c : Char) : Bool :=
  c = ' ' || c = '\t' || c = '\n' || c = '\r' || c = '\x0b' || c = '\x0c' ||
  c = Char.ofNat 160 || c = Char.ofNat 65279

/-- `String.prototype.trim`. -/
def jsTrim (cs : List Char) : List Char :=
  ((cs.dropWhile jsTrimWs).reverse.dropWhile jsTrimWs).reverse

/-- Tier 1 of the recovery parser: strip "```json" fences, then bare "```"
fences, then trim — exactly the two `replace` calls and the `trim()`. -/
def stripMarkup (cs : List Char) : List Char :=
  jsTrim (stripFence3 (stripFenceJson cs))

/-- Lookahead of the trailing-comma repair: does the rest start with `\s*`
followed by `}` or `]`? -/
def wsClose (rest : List Char) : Bool :=
  match rest.dropWhile jsRegexWs with
  | c :: _ => c = '\x7d' || c = ']'
  | [] => false

/-- `replace(/,(\s*[}\]])/g, "$1")`: each comma directly preceding
whitespace and a closing bracket is dropped (the whitespace and bracket are
kept by the `$1` backreference, so a character-wise deletion scan is
equivalent to the global regex pass). -/
def fixTrailingCommas : List Char → List Char
  | [] => []
  | c :: rest =>
    if c = ',' && wsClose rest then fixTrailingCommas rest
    else c :: fixTrailingCommas rest

/-- Lookahead of the unquoted-key repair after a `{` or `,`: `\s*` then a
non-empty `[a-zA-Z0-9_]` run then `\s*` then `:`.  Returns the leading
whitespace, the word and the remainder after the colon. -/
def keyProbe (rest : List Char) : Option (List Char × List Char × List Char) :=
  let ws1 := rest.takeWhile jsRegexWs
  let r1 := rest.dropWhile jsRegexWs
  let word := r1.takeWhile jsWordChar
  let r2 := r1.dropWhile jsWordChar
  match word with
  | [] => none
  | _ =>
    match r2.dropWhile jsRegexWs with
    | ':' :: r3 => some (ws1, word, r3)
    | _ => none

/-- `replace(/([{,]\s*)([a-zA-Z0-9_]+?)\s*:/g, "$1\"$2\":")`: quotes bare
identifier keys; the whitespace before the colon is consumed by the match and
not re-emitted.  Fuelled scan; one unit of fuel per emitted character, and
every step consumes at least one input character, so `length + 1` fuel always
suffices. -/
def fixKeysGo : Nat → List Char → List Char
  | 0, _ => []
  | _, [] => []
  | fuel + 1, c :: rest =>
    if c = '\x7b' || c = ',' then
      match keyProbe rest with
      | some (ws1, word, r3) =>
        c :: ws1 ++ '"' :: word ++ '"' :: ':' :: fixKeysGo fuel r3
      | none => c :: fixKeysGo fuel rest
    else c :: fixKeysGo fuel rest

def fixKeys (cs : List Char) : List Char := fixKeysGo (cs.length + 1) cs

/-- Lookahead of the missing-comma repair: `\s*` followed by a double quote;
returns the remainder starting at the quote (the quote is a lookahead in the
regex and is not consumed). -/
def wsQuote (rest : List Char) : Option (List Char) :=
  match rest.dropWhile jsRegexWs with
  | '"' :: r => some ('"' :: r)
  | _ => none

/-- `replace(/([}\]])\s*(?=")/g, "$1,")`: inserts a comma after a closing
bracket that is followed (possibly across whitespace, which the match
consumes and drops) by a double quote. -/
def fixMissingCommasGo : Nat → List Char → List Char
  | 0, _ => []
  | _, [] => []
  | fuel + 1, c :: rest =>
    if c = '\x7d' || c = ']' then
      match wsQuote rest with
      | some r => c :: ',' :: fixMissingCommasGo fuel r
      | none => c :: fixMissingCommasGo fuel rest
    else c :: fixMissingCommasGo fuel rest

def fixMissingCommas (cs : List Char) : List Char :=
  fixMissingCommasGo (cs.length + 1) cs

/-- Tier 2: the three syntax-repair rewrites, in source order. -/
def repairSyntax (cs : List Char) : List Char :=
  fixMissingCommas (fixKeys (fixTrailingCommas cs))

/-! ### Truncation repair -/

/-- Does `cs` start with the literal match of `/"designUpdate"\s*:\s*\[/`?
If so return the length of the match. -/
def duProbe (cs : List Char) : Option Nat :=
  match cs with
  | '"' :: 'd' :: 'e' :: 's' :: 'i' :: 'g' :: 'n' :: 'U' :: 'p' :: 'd' :: 'a'
      :: 't' :: 'e' :: '"' :: rest =>
    let ws1 := rest.takeWhile jsRegexWs
    (match rest.dropWhile jsRegexWs with
     | ':' :: r1 =>
       let ws2 := r1.takeWhile jsRegexWs
       (match r1.dropWhile jsRegexWs with
        | '[' :: _ => some (14 + ws1.length + 1 + ws2.length + 1)
        | _ => none)
     | _ => none)
  | _ => none

/-- `repaired.match(/"designUpdate"\s*:\s*\[/)`, reduced to what the code
uses: the index one past the matched `[` (that is `match.index +
match[0].length`), for the first match, if any. -/
def findDuStart : Nat → List Char → Option Nat
  | _, [] => none
  | i, c :: rest =>
    match duProbe (c :: rest) with
    | some len => some (i + len)
    | none => findDuStart (i + 1) rest

/-- `repaired.lastIndexOf('\x7d')`, as an `Option` (the code's `-1` case). -/
def lastBraceIdx : List Char → Option Nat
  | [] => none
  | c :: rest =>
    match lastBraceIdx rest with
    | some i => some (i + 1)
    | none => if c = '\x7d' then some 0 else none

/-- JS falsiness of a property read: an absent property (`undefined`), `null`,
`false`, the empty string, and numeric zero are falsy. -/
def jsFalsy : Option Json → Bool
  | none => true
  | some .null => true
  | some (.bool b) => !b
  | some (.str s) => s = ""
  | some (.num lit) =>
    (lit.data.takeWhile (fun c => c ≠ 'e' && c ≠ 'E')).all
      (fun c => !isDigitCh c || c = '0')
  | some (.arr _) => false
  | some (.obj _) => false

/-- Property lookup on a parsed value (`undefined` outside objects). -/
def jsGet (j : Json) (k : String) : Option Json :=
  match j with
  | .obj fields => (fields.find? (fun p => p.1 = k)).map (·.2)
  | _ => none

/-- The placeholder text synthesized when truncation recovery loses `text`. -/
def truncNote : String :=
  "Note: The design generation was partially truncated, but I recovered the geometry."

/-- `if (!result.text) result.text = ...` on the recovered object.  JS
property assignment overwrites in place or appends a fresh key; on a
non-object primitive the strict-mode assignment throws, which the
surrounding `catch` turns into the fallback (`none` here).  A non-object
result is unreachable anyway: the rebuilt text ends in `\x7d`, so a
successful parse is an object. -/
def ensureText (j : Json) : Option Json :=
  if jsFalsy (jsGet j "text") then
    match j with
    | .obj fields => some (.obj (objInsert "text" (.str truncNote) fields))
    | _ => none
  else some j

/-- Tier 3, lines 414-444 of the service: find the start of the
`designUpdate` array, cut at the last `\x7d` of the whole text if it lies
beyond that start, re-close with `]\x7d`, re-parse, and synthesize `text`
if it was lost.  Any failure inside is caught and yields `none`. -/
def truncationRepair (repaired : List Char) : Option Json :=
  match findDuStart 0 repaired with
  | none => none
  | some startIdx =>
    match lastBraceIdx repaired with
    | none => none
    | some lastEnd =>
      if startIdx < lastEnd then
        match jsonParse (repaired.take (lastEnd + 1) ++ [']', '\x7d']) with
        | some v => ensureText v
        | none => none
      else none

/-- The tier-4 fallback text (line 452). -/
def fallbackText : String :=
  "I generated a design, but there was a technical error processing the response structure (JSON Syntax Error). Please try again or ask for a smaller update."

/-- The tier-4 fallback envelope: an explicit empty design update. -/
def fallbackResponse : Json :=
  .obj [("text", .str fallbackText), ("designUpdate", .arr [])]

/-- The response-recovery parser (lines 386-455): strip markup, try a direct
parse, try the syntax repairs, try the truncation repair, else fall back.
Total by construction — the embedded code never rethrows. -/
def recoverParse (raw : List Char) : Json :=
  let t := stripMarkup raw
  match jsonParse t with
  | some v => v
  | none =>
    let r := repairSyntax t
    match jsonParse r with
    | some v => v
    | none =>
      match truncationRepair r with
      | some v => v
      | none => fallbackResponse

/-- The outer error envelope (lines 458-464): a `text`-only response — no
`designUpdate` member — embedding the thrown message. -/
def apiErrorText (msg : String) : String :=
  "I encountered an error processing the design. The model response might have been too large or complex. \n\nTechnical Error: " ++ msg ++ "\n\nTry asking for a smaller update."

def apiErrorResponse (msg : String) : Json :=
  .obj [("text", .str (apiErrorText msg))]

/-- `sendMessageToGemini` from the model text onwards: `response.text` may be
absent (`none`) or empty, and either way the guard on line 384 throws "No
response from Gemini", which the outer catch converts into the error
envelope; otherwise the recovery parser runs on the text. -/
def sendFromModelText (modelText : Option String) : Json :=
  match modelText with
  | none => apiErrorResponse "No response from Gemini"
  | some t =>
    if t = "" then apiErrorResponse "No response from Gemini"
    else recoverParse t.data

/-! ### Part 2: the scene-editor state machine (`types.ts` / `App.tsx` / `Viewer3D`) -/

inductive ShapeType where
  | box | sphere | cylinder | cone
deriving Repr, DecidableEq

inductive ShapeCategory where
  | structure_ | electrical | furniture | landscape
deriving Repr, DecidableEq

/-- The `Shape` interface of `types.ts`.  Numeric fields are exact rationals
(the verified claims never compute with them). -/
structure Shape where
  id : String
  type : ShapeType
  category : Option ShapeCategory := none
  groupId : Option String := none
  position : Rat × Rat × Rat
  rotation : Rat × Rat × Rat
  scale : Rat × Rat × Rat
  color : String
  args : Option (List Rat) := none
  name : Option String := none
  roughness : Option Rat := none
  metalness : Option Rat := none
  opacity : Option Rat := none
  visible : Option Bool := none
  emissive : Option String := none
  emissiveIntensity : Option Rat := none
deriving Repr, DecidableEq

/-- The undo/redo-bearing part of the `App` component state, polymorphic in
the snapshot type: the editor instantiates `α := List Shape`; the chat flow
stores whatever value `response.designUpdate` parsed to, so it instantiates
`α := Json`. -/
structure EditorSt (α : Type) where
  shapes : α
  pastStates : List α
  futureStates : List α
deriving Repr, DecidableEq

/-- `pushToHistory` (types.ts lines 322-325): snapshot `shapes` onto the end
of `pastStates` and clear `futureStates`. -/
def pushToHistory {α : Type} (st : EditorSt α) : EditorSt α :=
  { st with pastStates := st.pastStates ++ [st.shapes], futureStates := [] }

/-- `undo` (lines 327-335): no-op on an empty past stack; otherwise pop the
last snapshot, prepend the current shapes to `futureStates`, restore. -/
def undo {α : Type} (st : EditorSt α) : EditorSt α :=
  match st.pastStates.getLast? with
  | none => st
  | some prev =>
    { shapes := prev
      pastStates := st.pastStates.dropLast
      futureStates := st.shapes :: st.futureStates }

/-- `redo` (lines 337-345): no-op on an empty future stack; otherwise shift
the first snapshot off `futureStates`, append current shapes to `pastStates`,
restore. -/
def redo {α : Type} (st : EditorSt α) : EditorSt α :=
  match st.futureStates with
  | [] => st
  | next :: rest =>
    { shapes := next
      pastStates := st.pastStates ++ [st.shapes]
      futureStates := rest }

/-- `handleAddShape` (lines 608-611). -/
def handleAddShape (s : Shape) (st : EditorSt (List Shape)) : EditorSt (List Shape) :=
  { pushToHistory st with shapes := st.shapes ++ [s] }

/-- `handleDeleteShapes` (lines 603-606). -/
def handleDeleteShapes (ids : List String) (st : EditorSt (List Shape)) :
    EditorSt (List Shape) :=
  { pushToHistory st with shapes := st.shapes.filter (fun s => !ids.contains s.id) }

/-- `handleShapeUpdate` (lines 590-593). -/
def handleShapeUpdate (u : Shape) (st : EditorSt (List Shape)) : EditorSt (List Shape) :=
  { pushToHistory st with shapes := st.shapes.map (fun s => if s.id = u.id then u else s) }

/-- The lookup of `new Map(updatedShapes.map(s => [s.id, s])).get(id)`: the
last patch with a given id wins, `none` when no patch matches. -/
def lastById (patches : List Shape) (i : String) : Option Shape :=
  patches.foldl (fun acc p => if p.id = i then some p else acc) none

/-- The in-place merge of `handleShapesUpdate` (lines 595-601): every
existing shape is replaced by its patch when one exists, else kept;
patches with unknown ids are dropped. -/
def mergeById (patches : List Shape) (shapes : List Shape) : List Shape :=
  shapes.map (fun s => (lastById patches s.id).getD s)

/-- `handleShapesUpdate` (lines 595-601). -/
def handleShapesUpdate (patches : List Shape) (st : EditorSt (List Shape)) :
    EditorSt (List Shape) :=
  { pushToHistory st with shapes := mergeById patches st.shapes }

/-- The `designUpdate` branch of `handleSendMessage` (lines 552-555):
`pushToHistory(); setShapes(response.designUpdate)` — a wholesale
replacement. -/
def replaceShapes (newShapes : List Shape) (st : EditorSt (List Shape)) :
    EditorSt (List Shape) :=
  { pushToHistory st with shapes := newShapes }

/-- `handleGroup` (Viewer3D, lines 760-765): requires at least two selected
ids, then routes the regrouped shapes through `handleShapesUpdate`; the fresh
group id (`group-${Date.now()}` in the source) is a parameter here. -/
def handleGroup (selectedIds : List String) (gid : String)
    (st : EditorSt (List Shape)) : EditorSt (List Shape) :=
  if selectedIds.length < 2 then st
  else
    handleShapesUpdate
      ((st.shapes.filter (fun s => selectedIds.contains s.id)).map
        (fun s => { s with groupId := some gid })) st

/-- `handleUngroup` (lines 767-771): requires a non-empty selection, then
clears `groupId` on the selected shapes through `handleShapesUpdate`. -/
def handleUngroup (selectedIds : List String) (st : EditorSt (List Shape)) :
    EditorSt (List Shape) :=
  if selectedIds.length = 0 then st
  else
    handleShapesUpdate
      ((st.shapes.filter (fun s => selectedIds.contains s.id)).map
        (fun s => { s with groupId := none })) st

/-- A mutating operation of the editor, with the data each source handler
receives. -/
inductive EOp where
  | add (s : Shape)
  | delete (ids : List String)
  | update (u : Shape)
  | updateMany (patches : List Shape)
  | replace (newShapes : List Shape)
  | group (selectedIds : List String) (gid : String)
  | ungroup (selectedIds : List String)

def applyOp (op : EOp) (st : EditorSt (List Shape)) : EditorSt (List Shape) :=
  match op with
  | .add s => handleAddShape s st
  | .delete ids => handleDeleteShapes ids st
  | .update u => handleShapeUpdate u st
  | .updateMany ps => handleShapesUpdate ps st
  | .replace ns => replaceShapes ns st
  | .group sel gid => handleGroup sel gid st
  | .ungroup sel => handleUngroup sel st

def applyOps (ops : List EOp) (st : EditorSt (List Shape)) : EditorSt (List Shape) :=
  ops.foldl (fun s op => applyOp op s) st

/-- JS truthiness of a present value (used by `if (response.designUpdate)`):
objects and arrays — even empty ones — are truthy. -/
def jsTruthy (j : Json) : Bool := !jsFalsy (some j)

/-- The response-application part of `handleSendMessage` (lines 552-555): if
`response.designUpdate` is present and truthy, push history and replace the
shapes state with that value wholesale; otherwise the shape state and both
stacks are untouched. -/
def applyResponse (resp : Json) (st : EditorSt Json) : EditorSt Json :=
  match jsGet resp "designUpdate" with
  | some du => if jsTruthy du then { pushToHistory st with shapes := du } else st
  | none => st

/-- `handleShapeSelect` (Viewer3D, lines 733-750), in select mode: an
additive (shift) click toggles the id; a plain click on a shape with a truthy
`groupId` selects every shape sharing it, else exactly the clicked id. -/
def handleShapeSelect (shapes : List Shape) (selectedIds : List String)
    (shape : Shape) (shiftKey : Bool) : List String :=
  if shiftKey then
    if selectedIds.contains shape.id then selectedIds.filter (fun i => i ≠ shape.id)
    else selectedIds ++ [shape.id]
  else
    match shape.groupId with
    | some g =>
      if g ≠ "" then (shapes.filter (fun s => s.groupId = some g)).map (·.id)
      else [shape.id]
    | none => [shape.id]

/-! ### Auxiliary observations on envelopes -/

/-- Does `pat` occur as a leading segment of `cs`? -/
def startsWithSeq : List Char → List Char → Bool
  | [], _ => true
  | _ :: _, [] => false
  | p :: ps, c :: cs => p = c && startsWithSeq ps cs

/-- Does `pat` occur as a contiguous segment of `cs`? -/
def containsSeq (pat : List Char) : List Char → Bool
  | [] => startsWithSeq pat []
  | c :: rest => startsWithSeq pat (c :: rest) || containsSeq pat rest

/-- Is the `text` member present, a string, and non-empty? -/
def textNonempty (j : Json) : Bool :=
  match jsGet j "text" with
  | some (.str t) => t ≠ ""
  | _ => false

/-! ### The truncated-response families for the truncation-repair claim

A model response whose `designUpdate` array holds `n` complete shape objects
and is then cut inside the `(n+1)`-st object.  `shapeChunk` is one complete
serialized shape; `brokenTail` is the cut-off beginning of the next one. -/

def shapeChunkTail : List Char :=
  "\"id\":\"s1\",\"type\":\"box\",\"position\":[0,0,0],\"rotation\":[0,0,0],\"scale\":[1,1,1],\"color\":\"#ff0000\"\x7d".data

def brokenTailTail : List Char := "\"id\":\"s9\",\"po".data

/-- `n` complete shape objects, comma-separated, followed by the broken
`(n+1)`-st object, all after an opening `\x7b`. -/
def midTail : Nat → List Char
  | 0 => brokenTailTail
  | n + 1 => shapeChunkTail ++ ',' :: '\x7b' :: midTail n

def midChunk (n : Nat) : List Char := '\x7b' :: midTail n

/-- Envelope prefix with a `text` member before the truncated array. -/
def preT : List Char := "\x7b\"text\":\"hi\",\"designUpdate\":[".data

/-- Envelope prefix whose `text` member would have come after the truncated
array, hence is lost. -/
def preS : List Char := "\x7b\"designUpdate\":[".data

/-- A raw model output with `text` intact and `designUpdate` truncated after
`n` complete shapes. -/
def rawT (n : Nat) : List Char := preT ++ midChunk n

/-- A raw model output with `text` lost and `designUpdate` truncated after
`n` complete shapes. -/
def rawS (n : Nat) : List Char := preS ++ midChunk n

def sampleShape : Shape :=
  { id := "s1", type := .box, position := (0, 0, 0), rotation := (0, 0, 0),
    scale := (1, 1, 1), color := "#ffffff" }

def sampleShape2 : Shape :=
  { id := "s2", type := .sphere, groupId := some "g1", position := (1, 0, 0),
    rotation := (0, 0, 0), scale := (1, 1, 1), color := "#ff0000" }

def sampleShape3 : Shape :=
  { id := "s3", type := .cone, groupId := some "g1", position := (2, 0, 0),
    rotation := (0, 0, 0), scale := (1, 1, 1), color := "#00ff00" }

def sampleShape4 : Shape :=
  { id := "s4", type := .cylinder, groupId := some "g1", position := (3, 0, 0),
    rotation := (0, 0, 0), scale := (1, 1, 1), color := "#0000ff" }

def sampleScene : List Shape := [sampleShape, sampleShape2, sampleShape3, sampleShape4]

def sampleState : EditorSt (List Shape) :=
  { shapes := sampleScene, pastStates := [], futureStates := [[sampleShape]] }

def sampleJsonState : EditorSt Json :=
  { shapes := .arr [], pastStates := [], futureStates := [] }

/-! ## Theorems -/

set_option maxRecDepth 100000

/-! ### Helper lemmas on the patch merge -/

theorem lastById_aux_id (i : String) :
    ∀ (ps : List Shape) (acc : Option Shape) (p : Shape),
      (∀ q, acc = some q → q.id = i) →
      ps.foldl (fun a q => if q.id = i then some q else a) acc = some p → p.id = i := by
  intro ps
  induction ps with
  | nil => intro acc p hacc h; exact hacc p h
  | cons q rest ih =>
    intro acc p hacc h
    simp only [List.foldl_cons] at h
    by_cases hq : q.id = i
    · rw [if_pos hq] at h
      refine ih (some q) p ?_ h
      intro r hr
      cases hr
      exact hq
    · rw [if_neg hq] at h
      exact ih acc p hacc h

/-- The last-wins patch lookup only ever returns a patch carrying the looked-up
id (this is how `new Map(list).get(id)` behaves). -/
theorem lastById_id (ps : List Shape) (i : String) (p : Shape)
    (h : lastById ps i = some p) : p.id = i :=
  lastById_aux_id i ps none p (by intro q hq; cases hq) h

theorem lastById_foldl_filter (i : String) (pred : Shape → Bool) :
    ∀ (ps : List Shape) (acc : Option Shape),
      (∀ p ∈ ps, p.id = i → pred p = true) →
      (ps.filter pred).foldl (fun a q => if q.id = i then some q else a) acc =
        ps.foldl (fun a q => if q.id = i then some q else a) acc := by
  intro ps
  induction ps with
  | nil => intro acc _; rfl
  | cons q rest ih =>
    intro acc hyp
    by_cases hq : pred q = true
    · simp only [List.filter_cons, hq, if_pos, List.foldl_cons]
      exact ih _ (fun p hp => hyp p (List.mem_cons_of_mem q hp))
    · have hqid : q.id ≠ i := fun hid => hq (hyp q (List.mem_cons_self q rest) hid)
      simp only [List.filter_cons, hq, List.foldl_cons, if_neg hqid]
      simp only [Bool.false_eq_true, if_false]
      exact ih _ (fun p hp => hyp p (List.mem_cons_of_mem q hp))

/-- Dropping patches whose ids match no shape of `i`'s kind leaves the lookup
unchanged, as long as every patch with that id survives the filter. -/
theorem lastById_filter (ps : List Shape) (pred : Shape → Bool) (i : String)
    (hyp : ∀ p ∈ ps, p.id = i → pred p = true) :
    lastById (ps.filter pred) i = lastById ps i :=
  lastById_foldl_filter i pred ps none hyp

/-- C9: `handleShapesUpdate` is a frame-preserving in-place batch update: the
shapes list keeps its length and id order, each position is either its patch
(when one with its id exists — last patch wins) or the original shape, and
patches whose ids match no existing shape have no effect at all (they are
never appended). -/
theorem shapesUpdate_frame (patches : List Shape) (st : EditorSt (List Shape)) :
    (handleShapesUpdate patches st).shapes.length = st.shapes.length ∧
    (handleShapesUpdate patches st).shapes.map (fun s => s.id) =
      st.shapes.map (fun s => s.id) ∧
    (∀ i : Nat, (handleShapesUpdate patches st).shapes[i]? =
      (st.shapes[i]?).map (fun s => (lastById patches s.id).getD s)) ∧
    handleShapesUpdate patches st =
      handleShapesUpdate
        (patches.filter (fun p => st.shapes.any (fun s => s.id = p.id))) st := by
  refine ⟨?_, ?_, ?_, ?_⟩
  · simp [handleShapesUpdate, mergeById, pushToHistory]
  · simp only [handleShapesUpdate, mergeById, pushToHistory, List.map_map]
    apply List.map_congr_left
    intro s _
    simp only [Function.comp_apply]
    cases h : lastById patches s.id with
    | none => rfl
    | some p => exact lastById_id patches s.id p h
  · intro i
    simp [handleShapesUpdate, mergeById, pushToHistory]
  · simp only [handleShapesUpdate, mergeById, pushToHistory]
    have : ∀ s ∈ st.shapes,
        (lastById patches s.id).getD s =
        (lastById (patches.filter (fun p => st.shapes.any (fun t => t.id = p.id))) s.id).getD s := by
      intro s hs
      rw [lastById_filter patches _ s.id]
      intro p _ hpid
      exact List.any_eq_true.mpr ⟨s, hs, by simp [hpid]⟩
    have h2 : List.map (fun s => (lastById patches s.id).getD s) st.shapes =
        List.map
          (fun s =>
            (lastById (patches.filter (fun p => st.shapes.any (fun t => t.id = p.id))) s.id).getD s)
          st.shapes :=
      List.map_congr_left this
    rw [h2]

/-- C6: every mutating operation clears the redo stack.  The four bare
mutators and the designUpdate replacement do so unconditionally; `group` and
`ungroup` do so whenever their documented preconditions (at least two,
respectively at least one, selected shapes) hold — below those thresholds the
source returns before touching any state. -/
theorem mutators_clear_future :
    (∀ (s : Shape) (st : EditorSt (List Shape)), (handleAddShape s st).futureStates = []) ∧
    (∀ (ids : List String) (st : EditorSt (List Shape)),
      (handleDeleteShapes ids st).futureStates = []) ∧
    (∀ (u : Shape) (st : EditorSt (List Shape)),
      (handleShapeUpdate u st).futureStates = []) ∧
    (∀ (ps : List Shape) (st : EditorSt (List Shape)),
      (handleShapesUpdate ps st).futureStates = []) ∧
    (∀ (ns : List Shape) (st : EditorSt (List Shape)),
      (replaceShapes ns st).futureStates = []) ∧
    (∀ (resp : Json) (st : EditorSt Json) (du : Json),
      jsGet resp "designUpdate" = some du → jsTruthy du = true →
      (applyResponse resp st).futureStates = []) ∧
    (∀ (sel : List String) (gid : String) (st : EditorSt (List Shape)),
      2 ≤ sel.length → (handleGroup sel gid st).futureStates = []) ∧
    (∀ (sel : List String) (st : EditorSt (List Shape)),
      sel ≠ [] → (handleUngroup sel st).futureStates = []) := by
  refine ⟨?_, ?_, ?_, ?_, ?_, ?_, ?_, ?_⟩
  · intro s st; simp [handleAddShape, pushToHistory]
  · intro ids st; simp [handleDeleteShapes, pushToHistory]
  · intro u st; simp [handleShapeUpdate, pushToHistory]
  · intro ps st; simp [handleShapesUpdate, pushToHistory]
  · intro ns st; simp [replaceShapes, pushToHistory]
  · intro resp st du hdu htr
    simp [applyResponse, hdu, htr, pushToHistory]
  · intro sel gid st hsel
    have : ¬ sel.length < 2 := by omega
    simp [handleGroup, this, handleShapesUpdate, pushToHistory]
  · intro sel st hsel
    have : ¬ sel.length = 0 := by simpa [List.length_eq_zero] using hsel
    simp [handleUngroup, this, handleShapesUpdate, pushToHistory]

/-- Witness for `mutators_clear_future` at concrete inputs (the sample state
carries a non-empty redo stack, so the clearing is observable). -/
theorem mutators_clear_future_witness :
    (handleAddShape sampleShape sampleState).futureStates = [] ∧
    (applyResponse (Json.obj [("text", Json.str "ok"), ("designUpdate", Json.arr [])])
      sampleJsonState).futureStates = [] ∧
    (handleGroup ["s2", "s3"] "g9" sampleState).futureStates = [] ∧
    (handleUngroup ["s2"] sampleState).futureStates = [] :=
  ⟨mutators_clear_future.1 sampleShape sampleState,
   mutators_clear_future.2.2.2.2.2.1
     (Json.obj [("text", Json.str "ok"), ("designUpdate", Json.arr [])])
     sampleJsonState (Json.arr []) rfl rfl,
   mutators_clear_future.2.2.2.2.2.2.1 ["s2", "s3"] "g9" sampleState (by decide),
   mutators_clear_future.2.2.2.2.2.2.2 ["s2"] sampleState (by decide)⟩

/-- C3: a response without `designUpdate` leaves shapes and both history
stacks untouched, while a response whose `designUpdate` is present but the
empty array pushes a history entry and empties the shapes — and the latter
always changes the state (its past stack grows), so the two cases are
observably distinct. -/
theorem designUpdate_absent_vs_empty (st : EditorSt Json) (respA respE : Json)
    (hA : jsGet respA "designUpdate" = none)
    (hE : jsGet respE "designUpdate" = some (.arr [])) :
    applyResponse respA st = st ∧
    applyResponse respE st =
      { shapes := .arr [], pastStates := st.pastStates ++ [st.shapes],
        futureStates := [] } ∧
    applyResponse respE st ≠ st := by
  refine ⟨?_, ?_, ?_⟩
  · simp [applyResponse, hA]
  · simp [applyResponse, hE, jsTruthy, jsFalsy, pushToHistory]
  · simp only [applyResponse, hE]
    have : jsTruthy (Json.arr []) = true := rfl
    simp only [this, if_pos]
    intro h
    have hp : st.pastStates ++ [st.shapes] = st.pastStates := congrArg EditorSt.pastStates h
    have := congrArg List.length hp
    simp at this

/-- Witness for `designUpdate_absent_vs_empty` at concrete inputs. -/
theorem designUpdate_absent_vs_empty_witness :
    applyResponse (Json.obj [("text", Json.str "ok")]) sampleJsonState = sampleJsonState ∧
    applyResponse (Json.obj [("text", Json.str "ok"), ("designUpdate", Json.arr [])])
        sampleJsonState =
      { shapes := Json.arr [], pastStates := [Json.arr []], futureStates := [] } ∧
    applyResponse (Json.obj [("text", Json.str "ok"), ("designUpdate", Json.arr [])])
        sampleJsonState ≠ sampleJsonState := by
  have h := designUpdate_absent_vs_empty sampleJsonState
    (Json.obj [("text", Json.str "ok")])
    (Json.obj [("text", Json.str "ok"), ("designUpdate", Json.arr [])]) rfl rfl
  exact ⟨h.1, h.2.1, h.2.2⟩

/-- C10: the outer error envelope built when the model invocation or response
handling throws carries only a `text` member — no `designUpdate` — so the
caller's `if (response.designUpdate)` guard leaves the shapes list and both
undo stacks exactly as they were. -/
theorem api_error_leaves_editor_unchanged (msg : String) (st : EditorSt Json) :
    jsGet (apiErrorResponse msg) "designUpdate" = none ∧
    applyResponse (apiErrorResponse msg) st = st := by
  constructor
  · rfl
  · simp [applyResponse, apiErrorResponse, jsGet, List.find?]

/-- C8: `handleShapeSelect` in plain (non-additive) mode selects the whole
group of the clicked shape when it has a truthy `groupId` — exactly the ids
of the shapes sharing it — and exactly the clicked id otherwise; in additive
(shift) mode it toggles the clicked id and leaves every other id's
membership alone. -/
theorem selectShape_spec (shapes : List Shape) (sel : List String) (sh : Shape) :
    (∀ g : String, sh.groupId = some g → g ≠ "" →
      handleShapeSelect shapes sel sh false =
        (shapes.filter (fun s => s.groupId = some g)).map (fun s => s.id)) ∧
    (sh.groupId = none → handleShapeSelect shapes sel sh false = [sh.id]) ∧
    (sh.id ∈ handleShapeSelect shapes sel sh true ↔ sh.id ∉ sel) ∧
    (∀ i : String, i ≠ sh.id →
      (i ∈ handleShapeSelect shapes sel sh true ↔ i ∈ sel)) := by
  refine ⟨?_, ?_, ?_, ?_⟩
  · intro g hg hne
    simp [handleShapeSelect, hg, hne]
  · intro hg
    simp [handleShapeSelect, hg]
  · simp only [handleShapeSelect, if_pos]
    by_cases hmem : sel.contains sh.id
    · have hm : sh.id ∈ sel := by simpa using hmem
      simp [hmem, hm]
    · have hm : sh.id ∉ sel := by simpa using hmem
      simp [hmem, hm]
  · intro i hi
    simp only [handleShapeSelect, if_pos]
    by_cases hmem : sh.id ∈ sel
    · simp [hmem, List.mem_filter, hi]
    · simp [hmem, List.mem_append, hi]

/-- Witness for `selectShape_spec`: in the sample scene, a plain click on a
member of the three-shape group `g1` selects exactly those three ids; a plain
click on the ungrouped shape selects exactly it. -/
theorem selectShape_spec_witness :
    handleShapeSelect sampleScene ["s1"] sampleShape2 false =
      (sampleScene.filter (fun s => s.groupId = some "g1")).map (fun s => s.id) ∧
    handleShapeSelect sampleScene ["s1"] sampleShape false = [sampleShape.id] :=
  ⟨(selectShape_spec sampleScene ["s1"] sampleShape2).1 "g1" rfl (by decide),
   (selectShape_spec sampleScene ["s1"] sampleShape).2.1 rfl⟩

/-! ### The recovery parser: fallback and identity claims -/

/-- C1: whenever the direct parse, the syntax-repaired parse and the
truncation repair all fail, the recovery parser returns exactly the fallback
envelope — whose `designUpdate` is the explicit empty array and whose `text`
is a non-empty diagnostic naming a technical error.  (`recoverParse` is a
total function, so no input can make the embedded code throw.) -/
theorem recovery_fallback_on_unrepairable (raw : List Char)
    (h1 : jsonParse (stripMarkup raw) = none)
    (h2 : jsonParse (repairSyntax (stripMarkup raw)) = none)
    (h3 : truncationRepair (repairSyntax (stripMarkup raw)) = none) :
    recoverParse raw = fallbackResponse ∧
    jsGet fallbackResponse "designUpdate" = some (Json.arr []) ∧
    jsGet fallbackResponse "text" = some (Json.str fallbackText) ∧
    fallbackText ≠ "" ∧
    containsSeq "technical error".data fallbackText.data = true := by
  refine ⟨?_, rfl, rfl, by decide, by decide⟩
  rw [recoverParse]
  simp only [h1, h2, h3]

/-- Witness for `recovery_fallback_on_unrepairable`: all three tiers fail on
the unrepairable input and the fallback envelope is returned. -/
theorem recovery_fallback_witness :
    jsonParse (stripMarkup "\x7bnot json at all".data) = none ∧
    jsonParse (repairSyntax (stripMarkup "\x7bnot json at all".data)) = none ∧
    truncationRepair (repairSyntax (stripMarkup "\x7bnot json at all".data)) = none ∧
    recoverParse "\x7bnot json at all".data = fallbackResponse :=
  ⟨rfl, rfl, rfl,
   (recovery_fallback_on_unrepairable "\x7bnot json at all".data rfl rfl rfl).1⟩

/-- C7 counterexample: on the empty model text the parser does NOT return the
tier-4 fallback `(designUpdate : [])` envelope; the returned envelope has no
`designUpdate` member at all. -/
theorem empty_input_not_fallback_cex :
    sendFromModelText (some "") ≠ fallbackResponse ∧
    jsGet (sendFromModelText (some "")) "designUpdate" = none := by
  constructor
  · have h1 : sendFromModelText (some "") = apiErrorResponse "No response from Gemini" := rfl
    rw [h1]
    intro h
    simp only [apiErrorResponse, fallbackResponse, Json.obj.injEq] at h
    exact absurd (congrArg List.length h) (by decide)
  · rfl

/-- C7 amended: the empty string never reaches parse tier 1 — the guard
before parsing throws "No response from Gemini", and the outer catch turns
that into the `text`-only error envelope (no `designUpdate` member), with a
non-empty diagnostic. -/
theorem empty_input_outer_error :
    sendFromModelText (some "") = apiErrorResponse "No response from Gemini" ∧
    sendFromModelText none = apiErrorResponse "No response from Gemini" ∧
    jsGet (sendFromModelText (some "")) "designUpdate" = none ∧
    textNonempty (sendFromModelText (some "")) = true :=
  ⟨rfl, rfl, rfl, by decide⟩

/-! ### Fence-strip identity lemmas (for the identity-on-well-formed claim) -/

theorem containsSeq_cons_false {pat : List Char} {c : Char} {rest : List Char}
    (h : containsSeq pat (c :: rest) = false) :
    startsWithSeq pat (c :: rest) = false ∧ containsSeq pat rest = false := by
  rw [containsSeq] at h
  exact ⟨(Bool.or_eq_false_iff.mp h).1, (Bool.or_eq_false_iff.mp h).2⟩

theorem fenceJsonHead_fence {cs r : List Char} (h : fenceJsonHead cs = some r) :
    startsWithSeq ['`', '`', '`'] cs = true := by
  unfold fenceJsonHead at h
  split at h
  · next => simp [startsWithSeq]
  · exact absurd h (by simp)

theorem fence3Head_fence {cs r : List Char} (h : fence3Head cs = some r) :
    startsWithSeq ['`', '`', '`'] cs = true := by
  unfold fence3Head at h
  split at h
  · next => simp [startsWithSeq]
  · exact absurd h (by simp)

theorem stripFenceJsonGo_id :
    ∀ (cs : List Char) (f : Nat), cs.length < f →
      containsSeq ['`', '`', '`'] cs = false → stripFenceJsonGo f cs = cs := by
  intro cs
  induction cs with
  | nil =>
    intro f hf _
    match f, hf with
    | f + 1, _ => rfl
  | cons c rest ih =>
    intro f hf hns
    obtain ⟨hsw, hrest⟩ := containsSeq_cons_false hns
    match f, hf with
    | f + 1, hf =>
      have hlen : rest.length < f := by simpa using hf
      rw [stripFenceJsonGo]
      cases hh : fenceJsonHead (c :: rest) with
      | some rest2 => exact absurd (fenceJsonHead_fence hh) (by rw [hsw]; decide)
      | none => rw [ih f hlen hrest]

theorem stripFence3Go_id :
    ∀ (cs : List Char) (f : Nat), cs.length < f →
      containsSeq ['`', '`', '`'] cs = false → stripFence3Go f cs = cs := by
  intro cs
  induction cs with
  | nil =>
    intro f hf _
    match f, hf with
    | f + 1, _ => rfl
  | cons c rest ih =>
    intro f hf hns
    obtain ⟨hsw, hrest⟩ := containsSeq_cons_false hns
    match f, hf with
    | f + 1, hf =>
      have hlen : rest.length < f := by simpa using hf
      rw [stripFence3Go]
      cases hh : fence3Head (c :: rest) with
      | some rest2 => exact absurd (fence3Head_fence hh) (by rw [hsw]; decide)
      | none => rw [ih f hlen hrest]

/-- C5 amended: on an input with no "```" fence marker whose trimmed text is
well-formed JSON, the recovery parser is the identity: it returns exactly the
direct `JSON.parse` result, with no textual rewriting affecting it. -/
theorem wellformed_identity (s : List Char) (v : Json)
    (hfence : containsSeq ['`', '`', '`'] s = false)
    (hparse : jsonParse (jsTrim s) = some v) :
    recoverParse s = v := by
  have e1 : stripFenceJson s = s :=
    stripFenceJsonGo_id s (s.length + 1) (by omega) hfence
  have e2 : stripFence3 s = s :=
    stripFence3Go_id s (s.length + 1) (by omega) hfence
  rw [recoverParse, stripMarkup, e1, e2, hparse]

/-- Witness for `wellformed_identity` at a concrete well-formed envelope. -/
theorem wellformed_identity_witness :
    containsSeq ['`', '`', '`'] "\x7b\"text\":\"ok\"\x7d".data = false ∧
    jsonParse (jsTrim "\x7b\"text\":\"ok\"\x7d".data) =
      some (Json.obj [("text", Json.str "ok")]) ∧
    recoverParse "\x7b\"text\":\"ok\"\x7d".data = Json.obj [("text", Json.str "ok")] :=
  ⟨rfl, rfl, wellformed_identity "\x7b\"text\":\"ok\"\x7d".data
    (Json.obj [("text", Json.str "ok")]) rfl rfl⟩

/-- C5 counterexample: a well-formed envelope containing "```" inside its
`text` string parses directly, yet the recovery parser returns a different
envelope (the fence stripping rewrites the string content), so the parser is
not the identity on all well-formed inputs. -/
theorem wellformed_identity_cex :
    jsonParse "\x7b\"text\":\"a```b\"\x7d".data =
      some (Json.obj [("text", Json.str "a```b")]) ∧
    recoverParse "\x7b\"text\":\"a```b\"\x7d".data = Json.obj [("text", Json.str "ab")] ∧
    Json.obj [("text", Json.str "ab")] ≠ Json.obj [("text", Json.str "a```b")] := by
  refine ⟨rfl, rfl, ?_⟩
  intro h
  simp only [Json.obj.injEq, List.cons.injEq, Prod.mk.injEq, Json.str.injEq] at h
  exact absurd h.1.2 (by decide)

/-! ### Undo/redo round-trip -/

theorem undo_empty_past {α : Type} (s : α) (F : List α) :
    undo { shapes := s, pastStates := [], futureStates := F } =
      { shapes := s, pastStates := [], futureStates := F } := rfl

theorem undoN_empty_past {α : Type} (n : Nat) (s : α) (F : List α) :
    undo^[n] { shapes := s, pastStates := [], futureStates := F } =
      { shapes := s, pastStates := [], futureStates := F } := by
  induction n with
  | zero => rfl
  | succ n ih => rw [Function.iterate_succ_apply, undo_empty_past, ih]

theorem redo_empty_future {α : Type} (st : EditorSt α) (h : st.futureStates = []) :
    redo st = st := by
  cases st with
  | mk sh p f => cases h; rfl

theorem redoN_empty_future {α : Type} (n : Nat) (st : EditorSt α)
    (h : st.futureStates = []) : redo^[n] st = st := by
  induction n with
  | zero => rfl
  | succ n ih => rw [Function.iterate_succ_apply, redo_empty_future st h, ih]

/-- `undo` never reads the redo stack; iterating it from a state whose redo
stack carries an extra suffix only appends that suffix to the result. -/
theorem undoN_future_free {α : Type} :
    ∀ (n : Nat) (s : α) (p F : List α),
      undo^[n] { shapes := s, pastStates := p, futureStates := F } =
        { shapes := (undo^[n] { shapes := s, pastStates := p, futureStates := ([] : List α) }).shapes,
          pastStates := (undo^[n] { shapes := s, pastStates := p, futureStates := ([] : List α) }).pastStates,
          futureStates :=
            (undo^[n] { shapes := s, pastStates := p, futureStates := ([] : List α) }).futureStates ++ F } := by
  intro n
  induction n with
  | zero => intro s p F; simp
  | succ n ih =>
    intro s p F
    rw [Function.iterate_succ_apply, Function.iterate_succ_apply]
    cases hp : p.getLast? with
    | none =>
      have hpe : p = [] := List.getLast?_eq_none_iff.mp hp
      subst hpe
      rw [undo_empty_past, undo_empty_past, undoN_empty_past, undoN_empty_past]
      simp
    | some q =>
      have h1 : undo { shapes := s, pastStates := p, futureStates := F } =
          { shapes := q, pastStates := p.dropLast, futureStates := s :: F } := by
        rw [undo, hp]
      have h2 : undo { shapes := s, pastStates := p, futureStates := ([] : List α) } =
          { shapes := q, pastStates := p.dropLast, futureStates := [s] } := by
        rw [undo, hp]
      rw [h1, h2, ih q p.dropLast (s :: F), ih q p.dropLast [s]]
      simp

/-- Replaying exactly as many redos as the redo stack holds consumes the
stack; a surplus suffix is left in place. -/
theorem redoN_append {α : Type} :
    ∀ (F : List α) (s : α) (p G : List α),
      redo^[F.length] { shapes := s, pastStates := p, futureStates := F ++ G } =
        { shapes := (redo^[F.length] { shapes := s, pastStates := p, futureStates := F }).shapes,
          pastStates := (redo^[F.length] { shapes := s, pastStates := p, futureStates := F }).pastStates,
          futureStates := G } := by
  intro F
  induction F with
  | nil => intro s p G; simp
  | cons x F ih =>
    intro s p G
    simp only [List.length_cons]
    rw [Function.iterate_succ_apply, Function.iterate_succ_apply]
    have h1 : redo { shapes := s, pastStates := p, futureStates := x :: F ++ G } =
        { shapes := x, pastStates := p ++ [s], futureStates := F ++ G } := rfl
    have h2 : redo { shapes := s, pastStates := p, futureStates := x :: F } =
        { shapes := x, pastStates := p ++ [s], futureStates := F } := rfl
    rw [h1, h2, ih x (p ++ [s]) G]

/-- Every editor operation either leaves the state untouched (a guard no-op)
or performs `pushToHistory` followed by a pure shapes update. -/
theorem applyOp_cases (op : EOp) (st : EditorSt (List Shape)) :
    applyOp op st = st ∨
    ∃ ns : List Shape,
      applyOp op st =
        { shapes := ns, pastStates := st.pastStates ++ [st.shapes], futureStates := [] } := by
  cases op with
  | add s => exact Or.inr ⟨st.shapes ++ [s], rfl⟩
  | delete ids => exact Or.inr ⟨_, rfl⟩
  | update u => exact Or.inr ⟨_, rfl⟩
  | updateMany ps => exact Or.inr ⟨_, rfl⟩
  | replace ns => exact Or.inr ⟨ns, rfl⟩
  | group sel gid =>
    by_cases h : sel.length < 2
    · exact Or.inl (by simp [applyOp, handleGroup, h])
    · refine Or.inr ⟨mergeById
        ((st.shapes.filter (fun s => sel.contains s.id)).map
          (fun s => { s with groupId := some gid })) st.shapes, ?_⟩
      simp [applyOp, handleGroup, h, handleShapesUpdate, pushToHistory]
  | ungroup sel =>
    by_cases h : sel.length = 0
    · exact Or.inl (by simp [applyOp, handleUngroup, h])
    · refine Or.inr ⟨mergeById
        ((st.shapes.filter (fun s => sel.contains s.id)).map
          (fun s => { s with groupId := none })) st.shapes, ?_⟩
      simp [applyOp, handleUngroup, h, handleShapesUpdate, pushToHistory]

theorem applyOps_append_one (ops : List EOp) (op : EOp) (st : EditorSt (List Shape)) :
    applyOps (ops ++ [op]) st = applyOp op (applyOps ops st) := by
  simp [applyOps, List.foldl_append]

/-- The history invariant behind the undo/redo round trip: starting from empty
stacks, after any operation sequence the redo stack is empty, as many undos as
operations land exactly on the initial shapes with an empty past stack, and
replaying the accumulated redo stack reproduces the final state. -/
theorem applyOps_undo_redo (ops : List EOp) (s0 : List Shape) :
    (applyOps ops { shapes := s0, pastStates := [], futureStates := [] }).futureStates = [] ∧
    ∃ F : List (List Shape),
      undo^[ops.length] (applyOps ops { shapes := s0, pastStates := [], futureStates := [] }) =
        { shapes := s0, pastStates := [], futureStates := F } ∧
      F.length ≤ ops.length ∧
      redo^[F.length] { shapes := s0, pastStates := [], futureStates := F } =
        applyOps ops { shapes := s0, pastStates := [], futureStates := [] } := by
  induction ops using List.reverseRecOn with
  | nil => exact ⟨rfl, [], rfl, by simp, rfl⟩
  | append_singleton ops op ih =>
    obtain ⟨hfut, F, hundo, hlen, hredo⟩ := ih
    set stf := applyOps ops { shapes := s0, pastStates := [], futureStates := [] } with hstf
    rw [applyOps_append_one]
    rcases applyOp_cases op stf with hop | ⟨ns, hop⟩
    · rw [hop]
      refine ⟨hfut, F, ?_, by simpa using Nat.le_succ_of_le hlen, hredo⟩
      simp only [List.length_append, List.length_cons, List.length_nil]
      rw [Function.iterate_succ_apply', hundo, undo_empty_past]
    · rw [hop]
      have hstf_eta : stf = (⟨stf.shapes, stf.pastStates, []⟩ : EditorSt (List Shape)) := by
        rw [← hfut]
      refine ⟨rfl, F ++ [ns], ?_, ?_, ?_⟩
      · simp only [List.length_append, List.length_cons, List.length_nil]
        rw [Function.iterate_succ_apply]
        have hu : undo (⟨ns, stf.pastStates ++ [stf.shapes], []⟩ : EditorSt (List Shape)) =
            (⟨stf.shapes, stf.pastStates, [ns]⟩ : EditorSt (List Shape)) := by
          rw [undo]
          simp [List.getLast?_concat, List.dropLast_concat]
        rw [hu, undoN_future_free ops.length stf.shapes stf.pastStates [ns]]
        rw [← hstf_eta, hundo]
      · simp only [List.length_append, List.length_cons, List.length_nil]
        omega
      · simp only [List.length_append, List.length_cons, List.length_nil]
        rw [Function.iterate_succ_apply', redoN_append F s0 [] [ns], hredo]
        rfl

/-- C2: from empty history stacks, applying any sequence of mutating
operations, then as many `undo` calls, restores the initial shapes; following
with as many `redo` calls restores the shapes produced by the last
operation. -/
theorem undo_redo_roundtrip (ops : List EOp) (s0 : List Shape) :
    (undo^[ops.length]
        (applyOps ops { shapes := s0, pastStates := [], futureStates := [] })).shapes = s0 ∧
    (redo^[ops.length]
        (undo^[ops.length]
          (applyOps ops { shapes := s0, pastStates := [], futureStates := [] }))).shapes =
      (applyOps ops { shapes := s0, pastStates := [], futureStates := [] }).shapes := by
  obtain ⟨hfut, F, hundo, hlen, hredo⟩ := applyOps_undo_redo ops s0
  refine ⟨by rw [hundo], ?_⟩
  rw [hundo]
  have hsplit : redo^[ops.length]
      ({ shapes := s0, pastStates := [], futureStates := F } : EditorSt (List Shape)) =
      redo^[ops.length - F.length]
        (redo^[F.length] { shapes := s0, pastStates := [], futureStates := F }) := by
    rw [← Function.iterate_add_apply]
    congr 1
    omega
  rw [hsplit, hredo, redoN_empty_future _ _ hfut]

/-! ### Fuel monotonicity of the JSON parser -/

theorem lb_rawT0 : lastBraceIdx (rawT 0) = none := by decide

theorem lb_rawS0 : lastBraceIdx (rawS 0) = none := by decide

